import Mathlib

/-!
Shallow embedding of the safe-location-density repository.

`src/density.py` provides the H3 resolution lookup table (`H3Resolution`)
and the `DensityTransform` pipeline: hex-grid fitting with centroid
substitution, a polygon cache keyed by a formatted coordinate string, and
group-by aggregation of distinct entity identifiers.  `src/utils.py`
provides `free_bike_status_to_df`, a GBFS feed flattener.

Modelling choices: Python floats are rationals; dataframes are lists of
records; the polygon cache (a Python dict) is an insertion-ordered
association list; the f-string cache key is an explicit character
rendering of rationals.  External collaborators (h3pandas cell
assignment, shapely boundary polygons and centroids, folium maps, the
network) are abstract parameters of the definitions that use them.
-/

namespace SLD

/-! Basic list machinery shared by the embedding. -/

/-- Positional lookup on lists, written out so its properties are proved
from first principles in this development. -/

def listGet? {α : Type} : List α → ℕ → Option α
  | [], _ => none
  | a :: _, 0 => some a
  | _ :: l, n + 1 => listGet? l n

def dedupGo {α : Type} [DecidableEq α] (seen : List α) : List α → List α
  | [] => []
  | a :: l => if a ∈ seen then dedupGo seen l else a :: dedupGo (a :: seen) l

/-- Distinct elements of a list, keeping first occurrences in order.  This
is the key order of a Python dict built by one pass over the list. -/

def dedup1 {α : Type} [DecidableEq α] (l : List α) : List α := dedupGo [] l

def hasKey {K V : Type} [DecidableEq K] (c : List (K × V)) (k : K) : Bool :=
  c.any fun p => decide (p.1 = k)

/-- Python dict assignment `c[k] = v`: overwrite in place when the key is
present (keeping its position), append a fresh entry otherwise. -/

def dictInsert {K V : Type} [DecidableEq K]
    (c : List (K × V)) (k : K) (v : V) : List (K × V) :=
  if hasKey c k then c.map (fun p => if p.1 = k then (k, v) else p)
  else c ++ [(k, v)]

/-- Python `c.get(k)`: value of the entry with key `k`, if any. -/

def dictGet {K V : Type} [DecidableEq K]
    (c : List (K × V)) (k : K) : Option V :=
  (c.find? fun p => decide (p.1 = k)).map Prod.snd

def digitChar (d : ℕ) : Char := Char.ofNat (48 + d)

def natChars (n : ℕ) : List Char :=
  if n = 0 then [digitChar 0] else ((Nat.digits 10 n).reverse).map digitChar

def intChars (i : ℤ) : List Char :=
  if i < 0 then Char.ofNat 45 :: natChars i.natAbs else natChars i.toNat

def ratChars (q : ℚ) : List Char :=
  intChars q.num ++ (if q.den = 1 then [] else Char.ofNat 47 :: natChars q.den)

def poly_cache_key (lat lng : ℚ) : String :=
  String.mk (ratChars lat ++ Char.ofNat 45 :: ratChars lng)

def AGG : String := "agg"

/-- `EXTRAP = "extrapolate"`. -/

def EXTRAP : String := "extrapolate"

/-- `MODES = [AGG, EXTRAP]`. -/

def MODES : List String := [AGG, EXTRAP]

/-- The 16-entry table `_resolution_values` of `density.py`, with the
exact decimal constants of the source; the index of a tuple is the
resolution number. -/

def _resolution_values : List (ℚ × ℚ) :=
  [ (4250546.8477000, 1107.712591000),
    (607220.9782429, 418.676005500),
    (86745.8540347, 158.244655800),
    (12392.2648621, 59.810857940),
    (1770.3235517, 22.606379400),
    (252.9033645, 8.544408276),
    (36.1290521, 3.229482772),
    (5.1612932, 1.220629759),
    (0.7373276, 0.461354684),
    (0.1053325, 0.174375668),
    (0.0150475, 0.065907807),
    (0.0021496, 0.024910561),
    (0.0003071, 0.009415526),
    (0.0000439, 0.003559893),
    (0.0000063, 0.001348575),
    (0.0000009, 0.000509713) ]

/-- Python list subscription `l[i]`: non-negative indices from the front,
negative indices from the back (`l[i]` is `l[len(l) + i]` when
`-len(l) <= i < 0`), and an index error otherwise (modelled as `none`). -/

def pyIndex {α : Type} (l : List α) (i : ℤ) : Option α :=
  if 0 ≤ i then listGet? l i.toNat
  else if 0 ≤ i + l.length then listGet? l (i + l.length).toNat
  else none

/-- Dataclass `H3Resolution` of `density.py`. -/

structure H3Resolution where
  resolution : ℤ
  area_km2 : ℚ
  avg_edge_len_km : ℚ
  deriving DecidableEq

/-- `H3Resolution.from_resolution`: subscript the table with the given
resolution and wrap the tuple; the only failure is the index error of
the subscription, modelled by `none`. -/

def H3Resolution.from_resolution (res : ℤ) : Option H3Resolution :=
  (pyIndex _resolution_values res).map fun v =>
    { resolution := res, area_km2 := v.1, avg_edge_len_km := v.2 }

/-! The `DensityTransform` dataframe model.  A raw record is one row of
the input dataset (entity id, coordinates, other columns passed through
as `rest`); a fitted record additionally carries the boundary polygon
produced by the h3pandas / shapely collaborators, which stay abstract:
`cellOf` is the resolution-indexed cell assignment (`geo_to_h3`),
`boundaryOf` the cell boundary polygon (`h3_to_geo_boundary`), and
`centroidOf` the shapely centroid, as an (x, y) pair. -/

structure RawRecord (ι ρ : Type) where
  id : ι
  lat : ℚ
  lng : ℚ
  rest : ρ
  deriving DecidableEq

structure FitRecord (ι ρ P : Type) where
  id : ι
  lat : ℚ
  lng : ℚ
  rest : ρ
  geo : P
  deriving DecidableEq

variable {ι ρ P : Type}

/-- One record through the fit pipeline of `DensityTransform.fit`:
assign the cell at the requested resolution, take its boundary polygon
(the intermediate h3 index column is dropped by the source and so not
retained here), then overwrite `lng` with the centroid x coordinate
(`coords.xy[0][0]`) and `lat` with the centroid y (`coords.xy[1][0]`). -/

def fitRecord (cellOf : ℚ → ℚ → ℕ → ℕ) (boundaryOf : ℕ → P)
    (centroidOf : P → ℚ × ℚ) (res : ℕ) (r : RawRecord ι ρ) :
    FitRecord ι ρ P :=
  let poly := boundaryOf (cellOf r.lat r.lng res)
  { id := r.id, lat := (centroidOf poly).2, lng := (centroidOf poly).1,
    rest := r.rest, geo := poly }

/-- The frame-level fit: every record through `fitRecord`. -/

def fitDf (cellOf : ℚ → ℚ → ℕ → ℕ) (boundaryOf : ℕ → P)
    (centroidOf : P → ℚ × ℚ) (df : List (RawRecord ι ρ)) (res : ℕ) :
    List (FitRecord ι ρ P) :=
  df.map (fitRecord cellOf boundaryOf centroidOf res)

/-- The polygon cache built by `fit`: iterate the fitted rows, assigning
`cache[_poly_cache_key(lat, lng)] = row[GEO]` into a Python dict. -/

def buildCache (df : List (FitRecord ι ρ P)) : List (String × P) :=
  df.foldl (fun c r => dictInsert c (poly_cache_key r.lat r.lng) r.geo) []

/-- State of a `DensityTransform` instance as the transform methods see
it: the internal dataframe (in its post-fit shape; the guard keeps
methods from reading it while unfit), the polygon cache, the fit flag. -/

structure DensityTransform (ι ρ P : Type) where
  inputDf : List (FitRecord ι ρ P)
  polygonCache : List (String × P)
  isFit : Bool

/-- One output row of `_transform_agg`: the group key, the `nunique`
count of the id column, and the restored geometry column (absent —
`none` — when `restore_geo` is off, or when the cache lookup misses). -/

structure AggRow (P : Type) where
  lat : ℚ
  lng : ℚ
  count : ℕ
  geo : Option P
  deriving DecidableEq

inductive DtError where
  | needsFit
  | invalidMode
  deriving DecidableEq

/-- The `_needs_fit` decorator: the fit check comes first and wins; the
mode check fires only for a supplied, truthy mode — a Python empty
string is falsy, so `mode=""` skips the membership test. -/

def guardError (isFit : Bool) (mode? : Option String) : Option DtError :=
  if isFit = false then some DtError.needsFit
  else
    match mode? with
    | some m =>
      if m ≠ "" ∧ m ∉ MODES then some DtError.invalidMode else none
    | none => none

/-- `_transform_agg`: group the fitted records by (lat, lng), count the
distinct entity ids per group (pandas `nunique`), and optionally restore
the polygon of each group from the cache.  Pandas sorts the group keys;
the rows here appear in first-occurrence order instead, which none of
the verified properties depend on. -/

def transformAggDf [DecidableEq ι] (df : List (FitRecord ι ρ P))
    (cache : List (String × P)) (restoreGeo : Bool) : List (AggRow P) :=
  (dedup1 (df.map fun r => (r.lat, r.lng))).map fun p =>
    { lat := p.1, lng := p.2,
      count := (dedup1 ((df.filter fun r =>
        decide (r.lat = p.1 ∧ r.lng = p.2)).map fun r => r.id)).length,
      geo := if restoreGeo then dictGet cache (poly_cache_key p.1 p.2)
             else none }

/-- `DensityTransform.transform`: the decorator guard, then the
aggregate branch; any other validated mode falls off the end of the
Python function and returns `None`, modelled as `none`.  `mode?` is the
optional keyword argument (`none` = not supplied, defaulting to AGG). -/

def DensityTransform.transform [DecidableEq ι] (t : DensityTransform ι ρ P)
    (mode? : Option String) : Except DtError (Option (List (AggRow P))) :=
  match guardError t.isFit mode? with
  | some e => Except.error e
  | none =>
    if mode?.getD AGG = AGG
    then Except.ok (some (transformAggDf t.inputDf t.polygonCache false))
    else Except.ok none

/-- `DensityTransform.transform_plot`: same guard; for the aggregate
branch the folium map object is modelled by the data handed to the
choropleth renderer — the geometry-restored aggregation rows; any other
validated mode again returns `none`. -/

def DensityTransform.transformPlot [DecidableEq ι]
    (t : DensityTransform ι ρ P) (mode? : Option String) :
    Except DtError (Option (List (AggRow P))) :=
  match guardError t.isFit mode? with
  | some e => Except.error e
  | none =>
    if mode?.getD AGG = AGG
    then Except.ok (some (transformAggDf t.inputDf t.polygonCache true))
    else Except.ok none

/-- The instance state after `fit`: the grid-fitted frame, the polygon
cache built from it, the fit flag set.  (The stored `H3Resolution`
descriptor is independent of the aggregation claims.) -/

def mkFitted (cellOf : ℚ → ℚ → ℕ → ℕ) (boundaryOf : ℕ → P)
    (centroidOf : P → ℚ × ℚ) (df : List (RawRecord ι ρ)) (res : ℕ) :
    DensityTransform ι ρ P :=
  { inputDf := fitDf cellOf boundaryOf centroidOf df res,
    polygonCache := buildCache (fitDf cellOf boundaryOf centroidOf df res),
    isFit := true }

/-! In-place mutation model for the ownership claim.  Python dataframes
are heap objects: `__init__` stores `df.copy()`, and `fit` reassigns and
mutates only `self._input_df`.  A store maps references to dataframe
values (raw before fit, fitted after). -/

inductive DfVal (ι ρ P : Type) where
  | raw (df : List (RawRecord ι ρ))
  | fitted (df : List (FitRecord ι ρ P))

structure Store (ι ρ P : Type) where
  next : ℕ
  mem : ℕ → DfVal ι ρ P

structure DTRef where
  dfRef : ℕ
  isFit : Bool

/-- `DensityTransform.__init__`: allocate a fresh cell holding a copy of
the value of the dataset of the caller (`self._input_df = df.copy()`);
the instance keeps only the fresh reference. -/

def dtInit (s : Store ι ρ P) (callerRef : ℕ) : Store ι ρ P × DTRef :=
  ({ next := s.next + 1,
     mem := fun i => if i = s.next then s.mem callerRef else s.mem i },
   { dfRef := s.next, isFit := false })

/-- `DensityTransform.fit` at the store level: write the fitted frame
over the single cell owned by the instance.  Re-fitting an already
fitted frame is outside the verified lifecycle (an open question of the
spec); the write then keeps the old value. -/

def dtFit (cellOf : ℚ → ℚ → ℕ → ℕ) (boundaryOf : ℕ → P)
    (centroidOf : P → ℚ × ℚ) (s : Store ι ρ P) (t : DTRef) (res : ℕ) :
    Store ι ρ P × DTRef :=
  let v :=
    match s.mem t.dfRef with
    | DfVal.raw df => DfVal.fitted (fitDf cellOf boundaryOf centroidOf df res)
    | DfVal.fitted df => DfVal.fitted df
  ({ next := s.next, mem := fun i => if i = t.dfRef then v else s.mem i },
   { dfRef := t.dfRef, isFit := true })

/-! Model of `free_bike_status_to_df` in `utils.py`.  A feed is modelled
by its network outcome: a connection failure (the `requests.get` raise)
or a response carrying an HTTP status and the optional bikes list that
`resp.json().get("data", {}).get("bikes", None)` extracts.  Bike records
stay abstract.  The Python `resp` variable is assigned only when
`requests.get` returns, and the `except` branch of the source prints and
falls through without a `continue`; the model threads the current
binding of `resp` through the loop and raises the resulting
`UnboundLocalError` when `resp` is read before any assignment. -/

inductive FeedResult (β : Type) where
  | connError
  | resp (status : ℕ) (bikes : Option (List β))

inductive UtilError where
  | unboundLocal
  deriving DecidableEq

def fbsGo {β : Type} :
    List (FeedResult β) → Option (ℕ × Option (List β)) → List β →
      Except UtilError (List β)
  | [], _, acc => Except.ok acc
  | f :: rest, prev, acc =>
    match (match f with
           | FeedResult.connError => prev
           | FeedResult.resp s b => some (s, b)) with
    | none => Except.error UtilError.unboundLocal
    | some (s, b) =>
      if s ≠ 200 then fbsGo rest (some (s, b)) acc
      else
        match b with
        | none => fbsGo rest (some (s, b)) acc
        | some bs => fbsGo rest (some (s, b)) (acc ++ bs)

/-- `free_bike_status_to_df` over an explicit feed list (its Python
default, the live GBFS urls, is network input and outside the model):
accumulate the bike rows of each successfully parsed 200 response. -/

def free_bike_status_to_df {β : Type} (feeds : List (FeedResult β)) :
    Except UtilError (List β) :=
  fbsGo feeds none []

/-! Concrete instantiations used to evaluate the theorems: trivial
collaborators (every point to cell 0, whose boundary polygon is the
single abstract polygon with centroid (0, 0)) and small datasets. -/

/-- Cell assignment sending every coordinate pair to cell 0. -/

def g0 : ℚ → ℚ → ℕ → ℕ := fun _ _ _ => 0

/-- Boundary polygon collaborator over a one-polygon geometry type. -/

def bd0 : ℕ → Unit := fun _ => ()

/-- Centroid collaborator placing the single polygon at (0, 0). -/

def ctr0 : Unit → ℚ × ℚ := fun _ => (0, 0)

/-- The scenario dataset of the spec: three records with entity ids
[A, A, B] (here 0, 0, 1), all mapping to one cell under `g0`. -/

def df3 : List (RawRecord ℕ Unit) :=
  [⟨0, 1, 2, ()⟩, ⟨0, 3, 4, ()⟩, ⟨1, 5, 6, ()⟩]

/-- The scenario dataset, fitted at resolution 9. -/

def t3 : DensityTransform ℕ Unit Unit := mkFitted g0 bd0 ctr0 df3 9

/-- An un-fit instance (fresh from `__init__`). -/

def t0 : DensityTransform ℕ Unit Unit :=
  { inputDf := [], polygonCache := [], isFit := false }

/-- A fitted instance over an empty frame. -/

def t1 : DensityTransform ℕ Unit Unit :=
  { inputDf := [], polygonCache := [], isFit := true }

/-- Two records with distinct coordinates (same cell under `g0`). -/

def rA : RawRecord ℕ Unit := ⟨0, 1, 2, ()⟩

/-- Second record for the same-cell collapse check. -/

def rB : RawRecord ℕ Unit := ⟨1, 3, 4, ()⟩

/-- A one-cell store holding the dataset of the caller at reference 0. -/

def s0 : Store ℕ Unit Unit := { next := 1, mem := fun _ => DfVal.raw [rA] }

/-! The claims. -/

/-- C1: for every fitted `DensityTransform`, `transform()` in aggregate
mode returns the aggregation of the fitted frame: exactly one row per
distinct (lat, lng) pair present, and each count is the number of
distinct entity ids among the records sharing that pair, so duplicate
ids within a cell do not inflate the count. -/

theorem listGet?_isSome {α : Type} : ∀ (l : List α) (n : ℕ),
    (listGet? l n).isSome = true ↔ n < l.length
  | [], n => by simp [listGet?]
  | a :: l, 0 => by simp [listGet?]
  | a :: l, n + 1 => by
    simp only [listGet?, List.length_cons]
    rw [listGet?_isSome l n]
    omega

/-- First-occurrence deduplication, carrying the set of already seen
elements; the accumulator keeps the recursion structural. -/

theorem mem_dedupGo {α : Type} [DecidableEq α] (x : α) :
    ∀ (l seen : List α), x ∈ dedupGo seen l ↔ x ∈ l ∧ x ∉ seen
  | [], seen => by simp [dedupGo]
  | a :: l, seen => by
    by_cases h : a ∈ seen
    · rw [dedupGo, if_pos h, mem_dedupGo x l seen, List.mem_cons]
      constructor
      · rintro ⟨hx, hs⟩
        exact ⟨Or.inr hx, hs⟩
      · rintro ⟨rfl | hx, hs⟩
        · exact absurd h hs
        · exact ⟨hx, hs⟩
    · rw [dedupGo, if_neg h, List.mem_cons, mem_dedupGo x l (a :: seen),
        List.mem_cons, List.mem_cons]
      constructor
      · rintro (rfl | ⟨hx, hs⟩)
        · exact ⟨Or.inl rfl, h⟩
        · exact ⟨Or.inr hx, fun hseen => hs (Or.inr hseen)⟩
      · rintro ⟨rfl | hx, hs⟩
        · exact Or.inl rfl
        · by_cases hxa : x = a
          · exact Or.inl hxa
          · exact Or.inr ⟨hx, fun hmem => by
              rcases hmem with h1 | h2
              · exact hxa h1
              · exact hs h2⟩

theorem mem_dedup1 {α : Type} [DecidableEq α] (x : α) (l : List α) :
    x ∈ dedup1 l ↔ x ∈ l := by
  rw [dedup1, mem_dedupGo]
  simp

theorem nodup_dedupGo {α : Type} [DecidableEq α] :
    ∀ (l seen : List α), (dedupGo seen l).Nodup
  | [], seen => by simp [dedupGo]
  | a :: l, seen => by
    by_cases h : a ∈ seen
    · rw [dedupGo, if_pos h]
      exact nodup_dedupGo l seen
    · rw [dedupGo, if_neg h, List.nodup_cons]
      refine ⟨fun hmem => ?_, nodup_dedupGo l (a :: seen)⟩
      have := (mem_dedupGo a l (a :: seen)).mp hmem
      exact this.2 (List.mem_cons_self a seen)

theorem nodup_dedup1 {α : Type} [DecidableEq α] (l : List α) :
    (dedup1 l).Nodup := nodup_dedupGo l []

theorem length_dedupGo {α : Type} [DecidableEq α] :
    ∀ (l seen : List α),
      (dedupGo seen l).length = (l.toFinset \ seen.toFinset).card
  | [], seen => by simp [dedupGo]
  | a :: l, seen => by
    by_cases h : a ∈ seen
    · rw [dedupGo, if_pos h, length_dedupGo l seen]
      congr 1
      ext x
      simp only [Finset.mem_sdiff, List.mem_toFinset, List.toFinset_cons,
        Finset.mem_insert]
      constructor
      · rintro ⟨hx, hs⟩
        exact ⟨Or.inr hx, hs⟩
      · rintro ⟨rfl | hx, hs⟩
        · exact absurd h hs
        · exact ⟨hx, hs⟩
    · rw [dedupGo, if_neg h, List.length_cons, length_dedupGo l (a :: seen)]
      have hins : (a :: l).toFinset \ seen.toFinset
          = insert a (l.toFinset \ (a :: seen).toFinset) := by
        ext x
        simp only [Finset.mem_sdiff, List.mem_toFinset, List.toFinset_cons,
          Finset.mem_insert, List.mem_cons]
        constructor
        · rintro ⟨rfl | hx, hs⟩
          · exact Or.inl rfl
          · by_cases hxa : x = a
            · exact Or.inl hxa
            · exact Or.inr ⟨hx, fun hmem => by
                rcases hmem with h1 | h2
                · exact hxa h1
                · exact hs h2⟩
        · rintro (rfl | ⟨hx, hs⟩)
          · exact ⟨Or.inl rfl, h⟩
          · exact ⟨Or.inr hx, fun hseen => hs (Or.inr hseen)⟩
      have hnot : a ∉ l.toFinset \ (a :: seen).toFinset := by
        intro hmem
        exact (Finset.mem_sdiff.mp hmem).2 (by simp)
      rw [hins, Finset.card_insert_of_not_mem hnot]

theorem length_dedup1 {α : Type} [DecidableEq α] (l : List α) :
    (dedup1 l).length = l.toFinset.card := by
  rw [dedup1, length_dedupGo]
  simp

theorem dedupGo_congr {α : Type} [DecidableEq α] :
    ∀ (l s1 s2 : List α), (∀ x, x ∈ s1 ↔ x ∈ s2) →
      dedupGo s1 l = dedupGo s2 l
  | [], s1, s2, _ => rfl
  | a :: l, s1, s2, hs => by
    by_cases h : a ∈ s1
    · rw [dedupGo, if_pos h, dedupGo, if_pos ((hs a).mp h)]
      exact dedupGo_congr l s1 s2 hs
    · rw [dedupGo, if_neg h, dedupGo, if_neg (fun h2 => h ((hs a).mpr h2))]
      refine congrArg (a :: ·) (dedupGo_congr l (a :: s1) (a :: s2) ?_)
      intro x
      simp only [List.mem_cons]
      constructor
      · rintro (rfl | hx)
        · exact Or.inl rfl
        · exact Or.inr ((hs x).mp hx)
      · rintro (rfl | hx)
        · exact Or.inl rfl
        · exact Or.inr ((hs x).mpr hx)

theorem dedupGo_map {α β : Type} [DecidableEq α] [DecidableEq β]
    {f : α → β} (hf : Function.Injective f) :
    ∀ (l seen : List α),
      dedupGo (seen.map f) (l.map f) = (dedupGo seen l).map f
  | [], seen => by simp [dedupGo]
  | a :: l, seen => by
    have hmem : f a ∈ seen.map f ↔ a ∈ seen := by
      constructor
      · intro h
        rcases List.mem_map.mp h with ⟨b, hb, hba⟩
        exact (hf hba) ▸ hb
      · exact List.mem_map_of_mem f
    by_cases h : a ∈ seen
    · rw [List.map_cons, dedupGo, if_pos (hmem.mpr h), dedupGo, if_pos h]
      exact dedupGo_map hf l seen
    · rw [List.map_cons, dedupGo, if_neg (fun h2 => h (hmem.mp h2)),
        dedupGo, if_neg h, List.map_cons]
      refine congrArg (f a :: ·) ?_
      have := dedupGo_map hf l (a :: seen)
      rwa [List.map_cons] at this

theorem dedup1_map {α β : Type} [DecidableEq α] [DecidableEq β]
    {f : α → β} (hf : Function.Injective f) (l : List α) :
    dedup1 (l.map f) = (dedup1 l).map f := by
  have := dedupGo_map hf l []
  simpa [dedup1] using this

/-! Association lists with Python dict semantics (insertion order, lookup
of the unique entry per key, overwrite in place). -/

/-- Python `k in c` over an association list. -/

theorem hasKey_iff {K V : Type} [DecidableEq K]
    (c : List (K × V)) (k : K) :
    hasKey c k = true ↔ k ∈ c.map Prod.fst := by
  simp only [hasKey, List.any_eq_true, decide_eq_true_eq, List.mem_map]

theorem keys_dictInsert {K V : Type} [DecidableEq K]
    (c : List (K × V)) (k : K) (v : V) :
    (dictInsert c k v).map Prod.fst =
      if k ∈ c.map Prod.fst then c.map Prod.fst
      else c.map Prod.fst ++ [k] := by
  by_cases h : k ∈ c.map Prod.fst
  · rw [dictInsert, if_pos ((hasKey_iff c k).mpr h), if_pos h, List.map_map]
    refine List.map_congr_left ?_
    intro p _
    by_cases hp : p.1 = k
    · simp [Function.comp, hp]
    · simp [Function.comp, hp]
  · have hk : ¬ hasKey c k = true := fun h2 => h ((hasKey_iff c k).mp h2)
    rw [dictInsert, if_neg hk, if_neg h]
    simp

theorem dictGet_isSome {K V : Type} [DecidableEq K] :
    ∀ (c : List (K × V)) (k : K), k ∈ c.map Prod.fst →
      (dictGet c k).isSome = true
  | [], k => by simp
  | p :: c, k => by
    intro hmem
    by_cases hp : p.1 = k
    · rw [dictGet, List.find?_cons_of_pos _ (by simpa using hp)]
      rfl
    · rw [dictGet, List.find?_cons_of_neg _ (by simpa using hp)]
      rcases List.mem_map.mp hmem with ⟨q, hq, hqk⟩
      rcases List.mem_cons.mp hq with rfl | hq2
      · exact absurd hqk hp
      · exact dictGet_isSome c k (List.mem_map.mpr ⟨q, hq2, hqk⟩)

theorem foldl_dictInsert_keys {K V R : Type} [DecidableEq K]
    (f : R → K) (v : R → V) :
    ∀ (df : List R) (c : List (K × V)),
      ((df.foldl (fun acc r => dictInsert acc (f r) (v r)) c).map Prod.fst)
        = c.map Prod.fst ++ dedupGo (c.map Prod.fst) (df.map f)
  | [], c => by simp [dedupGo]
  | r :: df, c => by
    rw [List.foldl_cons, foldl_dictInsert_keys f v df, keys_dictInsert,
      List.map_cons, dedupGo]
    by_cases h : f r ∈ c.map Prod.fst
    · rw [if_pos h, if_pos h]
    · rw [if_neg h, if_neg h, List.append_assoc, List.singleton_append]
      refine congrArg (c.map Prod.fst ++ f r :: ·) ?_
      refine dedupGo_congr (df.map f) _ _ ?_
      intro x
      simp only [List.mem_append, List.mem_cons, List.mem_singleton,
        List.not_mem_nil, or_false]
      tauto

/-! The polygon cache key.  `density.py` builds it as the f-string
`"{lat}-{lng}"` (`_poly_cache_key`).  Coordinates are modelled as
rationals, so the embedding renders a rational to characters the way a
decimal rendering of a Python float behaves for the purpose at hand:
digits only, a sign dash only in front, one internal separator at most.
The injectivity of the resulting key is what makes the string-keyed
cache a faithful one-entry-per-cell map. -/

/-- Character for a single decimal digit. -/

theorem digitChar_inj_lt : ∀ d1 < 10, ∀ d2 < 10,
    digitChar d1 = digitChar d2 → d1 = d2 := by decide

theorem digitChar_ne_dash_slash : ∀ d < 10,
    digitChar d ≠ Char.ofNat 45 ∧ digitChar d ≠ Char.ofNat 47 := by decide

/-- Decimal rendering of a natural number (most significant digit first). -/

theorem natChars_ne_nil (n : ℕ) : natChars n ≠ [] := by
  by_cases h : n = 0
  · simp [natChars, h]
  · simp only [natChars, if_neg h, ne_eq, List.map_eq_nil_iff,
      List.reverse_eq_nil_iff]
    exact Nat.digits_ne_nil_iff_ne_zero.mpr h

theorem natChars_shape (n : ℕ) :
    ∀ c ∈ natChars n, ∃ d, d < 10 ∧ c = digitChar d := by
  intro c hc
  by_cases h : n = 0
  · rw [natChars, if_pos h] at hc
    rcases List.mem_singleton.mp hc with rfl
    exact ⟨0, by omega, rfl⟩
  · rw [natChars, if_neg h] at hc
    rcases List.mem_map.mp hc with ⟨d, hd, rfl⟩
    have hd2 : d ∈ Nat.digits 10 n := List.mem_reverse.mp hd
    exact ⟨d, Nat.digits_lt_base (by omega) hd2, rfl⟩

theorem natChars_no_dash_slash (n : ℕ) :
    ∀ c ∈ natChars n, c ≠ Char.ofNat 45 ∧ c ≠ Char.ofNat 47 := by
  intro c hc
  rcases natChars_shape n c hc with ⟨d, hd, rfl⟩
  exact digitChar_ne_dash_slash d hd

theorem map_digitChar_inj :
    ∀ (l1 l2 : List ℕ), (∀ d ∈ l1, d < 10) → (∀ d ∈ l2, d < 10) →
      l1.map digitChar = l2.map digitChar → l1 = l2
  | [], [], _, _, _ => rfl
  | [], d :: l2, _, _, h => by simp at h
  | d :: l1, [], _, _, h => by simp at h
  | d1 :: l1, d2 :: l2, hb1, hb2, h => by
    simp only [List.map_cons, List.cons.injEq] at h
    have hd := digitChar_inj_lt d1 (hb1 d1 (List.mem_cons_self d1 l1))
      d2 (hb2 d2 (List.mem_cons_self d2 l2)) h.1
    have ht := map_digitChar_inj l1 l2
      (fun d hd2 => hb1 d (List.mem_cons_of_mem d1 hd2))
      (fun d hd2 => hb2 d (List.mem_cons_of_mem d2 hd2)) h.2
    rw [hd, ht]

theorem natChars_inj {m n : ℕ} (h : natChars m = natChars n) : m = n := by
  by_cases hm : m = 0 <;> by_cases hn : n = 0
  · rw [hm, hn]
  · exfalso
    rw [natChars, if_pos hm, natChars, if_neg hn] at h
    rcases hl : (Nat.digits 10 n).reverse with _ | ⟨d, ds⟩
    · rw [hl] at h
      simp at h
    · rw [hl] at h
      rcases ds with _ | ⟨d2, ds2⟩
      · simp only [List.map_cons, List.map_nil, List.cons.injEq] at h
        have hd10 : d < 10 := by
          have hmem : d ∈ Nat.digits 10 n := by
            apply List.mem_reverse.mp
            rw [hl]
            exact List.mem_cons_self d []
          exact Nat.digits_lt_base (by omega) hmem
        have : d = 0 := digitChar_inj_lt d hd10 0 (by omega) h.1.symm
        subst this
        have hdig : Nat.digits 10 n = [0] := by
          have := congrArg List.reverse hl
          simpa using this
        have := Nat.ofDigits_digits 10 n
        rw [hdig] at this
        simp [Nat.ofDigits] at this
        exact hn this.symm
      · simp at h
  · exfalso
    rw [natChars, if_neg hm, natChars, if_pos hn] at h
    rcases hl : (Nat.digits 10 m).reverse with _ | ⟨d, ds⟩
    · rw [hl] at h
      simp at h
    · rw [hl] at h
      rcases ds with _ | ⟨d2, ds2⟩
      · simp only [List.map_cons, List.map_nil, List.cons.injEq] at h
        have hd10 : d < 10 := by
          have hmem : d ∈ Nat.digits 10 m := by
            apply List.mem_reverse.mp
            rw [hl]
            exact List.mem_cons_self d []
          exact Nat.digits_lt_base (by omega) hmem
        have : d = 0 := digitChar_inj_lt d hd10 0 (by omega) h.1
        subst this
        have hdig : Nat.digits 10 m = [0] := by
          have := congrArg List.reverse hl
          simpa using this
        have := Nat.ofDigits_digits 10 m
        rw [hdig] at this
        simp [Nat.ofDigits] at this
        exact hm this.symm
      · simp at h
  · rw [natChars, if_neg hm, natChars, if_neg hn] at h
    have hrev := map_digitChar_inj _ _
      (fun d hd => Nat.digits_lt_base (by omega) (List.mem_reverse.mp hd))
      (fun d hd => Nat.digits_lt_base (by omega) (List.mem_reverse.mp hd)) h
    have hdig : Nat.digits 10 m = Nat.digits 10 n :=
      List.reverse_injective hrev
    calc m = Nat.ofDigits 10 (Nat.digits 10 m) := (Nat.ofDigits_digits 10 m).symm
    _ = Nat.ofDigits 10 (Nat.digits 10 n) := by rw [hdig]
    _ = n := Nat.ofDigits_digits 10 n

/-- Decimal rendering of an integer: a leading dash for negatives. -/

theorem intChars_ne_nil (i : ℤ) : intChars i ≠ [] := by
  by_cases h : i < 0
  · simp [intChars, h]
  · rw [intChars, if_neg h]
    exact natChars_ne_nil _

theorem intChars_no_slash (i : ℤ) :
    ∀ c ∈ intChars i, c ≠ Char.ofNat 47 := by
  intro c hc
  by_cases h : i < 0
  · rw [intChars, if_pos h] at hc
    rcases List.mem_cons.mp hc with rfl | hc2
    · decide
    · exact (natChars_no_dash_slash _ c hc2).2
  · rw [intChars, if_neg h] at hc
    exact (natChars_no_dash_slash _ c hc).2

theorem intChars_tail_clean (i : ℤ) :
    ∀ c ∈ (intChars i).tail, c ≠ Char.ofNat 45 ∧ c ≠ Char.ofNat 47 := by
  intro c hc
  by_cases h : i < 0
  · rw [intChars, if_pos h] at hc
    exact natChars_no_dash_slash _ c hc
  · rw [intChars, if_neg h] at hc
    exact natChars_no_dash_slash _ c (List.mem_of_mem_tail hc)

theorem intChars_inj {a b : ℤ} (h : intChars a = intChars b) : a = b := by
  by_cases ha : a < 0 <;> by_cases hb : b < 0
  · rw [intChars, if_pos ha, intChars, if_pos hb, List.cons.injEq] at h
    have := natChars_inj h.2
    omega
  · exfalso
    rw [intChars, if_pos ha, intChars, if_neg hb] at h
    have : Char.ofNat 45 ∈ natChars b.toNat := by
      rw [← h]
      exact List.mem_cons_self _ _
    exact (natChars_no_dash_slash _ _ this).1 rfl
  · exfalso
    rw [intChars, if_neg ha, intChars, if_pos hb] at h
    have : Char.ofNat 45 ∈ natChars a.toNat := by
      rw [h]
      exact List.mem_cons_self _ _
    exact (natChars_no_dash_slash _ _ this).1 rfl
  · rw [intChars, if_neg ha, intChars, if_neg hb] at h
    have := natChars_inj h
    omega

/-- Decimal-style rendering of a rational: the numerator, then a
denominator block when the denominator is not 1.  This is the shape the
rendering of a Python float coordinate has for the purpose at hand: an
optional leading dash, then sign-free characters. -/

theorem ratChars_ne_nil (q : ℚ) : ratChars q ≠ [] := by
  rw [ratChars]
  intro h
  rcases List.append_eq_nil.mp h with ⟨h1, _⟩
  exact intChars_ne_nil q.num h1

theorem ratChars_tail_no_dash (q : ℚ) :
    ∀ c ∈ (ratChars q).tail, c ≠ Char.ofNat 45 := by
  intro c hc
  rcases List.exists_cons_of_ne_nil (intChars_ne_nil q.num) with ⟨h0, t0, ht⟩
  rw [ratChars, ht, List.cons_append, List.tail_cons] at hc
  rcases List.mem_append.mp hc with hc1 | hc2
  · have : c ∈ (intChars q.num).tail := by
      rw [ht]
      exact hc1
    exact (intChars_tail_clean q.num c this).1
  · by_cases hd : q.den = 1
    · rw [if_pos hd] at hc2
      simp at hc2
    · rw [if_neg hd] at hc2
      rcases List.mem_cons.mp hc2 with rfl | hc3
      · decide
      · exact (natChars_no_dash_slash _ c hc3).1

/-- Splitting a one-separator string is unambiguous when the separator
occurs in neither prefix. -/

theorem append_cons_inj {α : Type} {x : α} :
    ∀ {a c : List α} {b d : List α}, x ∉ a → x ∉ c →
      a ++ x :: b = c ++ x :: d → a = c ∧ b = d
  | [], [], b, d, _, _, h => by
    simp only [List.nil_append, List.cons.injEq] at h
    exact ⟨rfl, h.2⟩
  | [], ch :: ct, b, d, _, hc, h => by
    exfalso
    simp only [List.nil_append, List.cons_append, List.cons.injEq] at h
    exact hc (h.1 ▸ List.mem_cons_self ch ct)
  | ah :: ta, [], b, d, ha, _, h => by
    exfalso
    simp only [List.nil_append, List.cons_append, List.cons.injEq] at h
    exact ha (h.1.symm ▸ List.mem_cons_self ah ta)
  | ah :: ta, ch :: ct, b, d, ha, hc, h => by
    simp only [List.cons_append, List.cons.injEq] at h
    have hrec := append_cons_inj (fun hm => ha (List.mem_cons_of_mem ah hm))
      (fun hm => hc (List.mem_cons_of_mem ch hm)) h.2
    exact ⟨by rw [h.1, hrec.1], hrec.2⟩

theorem ratChars_inj {p q : ℚ} (h : ratChars p = ratChars q) : p = q := by
  by_cases dp : p.den = 1 <;> by_cases dq : q.den = 1
  · rw [ratChars, if_pos dp, ratChars, if_pos dq, List.append_nil,
      List.append_nil] at h
    exact Rat.ext (intChars_inj h) (dp.trans dq.symm)
  · exfalso
    rw [ratChars, if_pos dp, ratChars, if_neg dq, List.append_nil] at h
    have : Char.ofNat 47 ∈ intChars p.num := by
      rw [h]
      exact List.mem_append.mpr (Or.inr (List.mem_cons_self _ _))
    exact intChars_no_slash p.num _ this rfl
  · exfalso
    rw [ratChars, if_neg dp, ratChars, if_pos dq, List.append_nil] at h
    have : Char.ofNat 47 ∈ intChars q.num := by
      rw [← h]
      exact List.mem_append.mpr (Or.inr (List.mem_cons_self _ _))
    exact intChars_no_slash q.num _ this rfl
  · rw [ratChars, if_neg dp, ratChars, if_neg dq] at h
    have hsplit := append_cons_inj (fun hm => intChars_no_slash p.num _ hm rfl)
      (fun hm => intChars_no_slash q.num _ hm rfl) h
    exact Rat.ext (intChars_inj hsplit.1) (natChars_inj hsplit.2)

/-- Model of `_poly_cache_key` in `density.py`: the f-string
`"{lat}-{lng}"`. -/

theorem poly_cache_key_inj {a b c d : ℚ}
    (h : poly_cache_key a b = poly_cache_key c d) : a = c ∧ b = d := by
  have hl : ratChars a ++ Char.ofNat 45 :: ratChars b
      = ratChars c ++ Char.ofNat 45 :: ratChars d := by
    have := congrArg String.data h
    simpa [poly_cache_key] using this
  rcases List.exists_cons_of_ne_nil (ratChars_ne_nil a) with ⟨ha0, ta, hta⟩
  rcases List.exists_cons_of_ne_nil (ratChars_ne_nil c) with ⟨hc0, tc, htc⟩
  have hheads : ha0 = hc0 := by
    rw [hta, htc] at hl
    simpa using congrArg (fun l => l.headI) hl
  by_cases hdash : ha0 = Char.ofNat 45
  · have hna : Char.ofNat 45 ∉ ta := fun hm =>
      ratChars_tail_no_dash a (Char.ofNat 45) (by rw [hta]; exact hm) rfl
    have hnc : Char.ofNat 45 ∉ tc := fun hm =>
      ratChars_tail_no_dash c (Char.ofNat 45) (by rw [htc]; exact hm) rfl
    rw [hta, htc, List.cons_append, List.cons_append] at hl
    have htails : ta ++ Char.ofNat 45 :: ratChars b
        = tc ++ Char.ofNat 45 :: ratChars d := by
      have h2 := hl
      rw [hheads] at h2
      exact ((List.cons.injEq _ _ _ _).mp h2).2
    have hsplit := append_cons_inj hna hnc htails
    have hac : ratChars a = ratChars c := by
      rw [hta, htc, hheads, hsplit.1]
    exact ⟨ratChars_inj hac, ratChars_inj hsplit.2⟩
  · have hna : Char.ofNat 45 ∉ ratChars a := by
      rw [hta]
      intro hm
      rcases List.mem_cons.mp hm with heq | hm2
      · exact hdash heq.symm
      · exact ratChars_tail_no_dash a _ (by rw [hta]; exact hm2) rfl
    have hnc : Char.ofNat 45 ∉ ratChars c := by
      rw [htc]
      intro hm
      rcases List.mem_cons.mp hm with heq | hm2
      · exact hdash (hheads.trans heq.symm)
      · exact ratChars_tail_no_dash c _ (by rw [htc]; exact hm2) rfl
    have hsplit := append_cons_inj hna hnc hl
    exact ⟨ratChars_inj hsplit.1, ratChars_inj hsplit.2⟩

theorem poly_cache_key_pair_inj :
    Function.Injective (fun p : ℚ × ℚ => poly_cache_key p.1 p.2) := by
  intro p q h
  have h2 := poly_cache_key_inj h
  exact Prod.ext h2.1 h2.2

/-! Constants of `density.py`. -/

/-- `AGG = "agg"`. -/

theorem claim_C1_agg_distinct_counts {ι ρ P : Type} [DecidableEq ι]
    (t : DensityTransform ι ρ P) (h : t.isFit = true) :
    t.transform none
      = Except.ok (some (transformAggDf t.inputDf t.polygonCache false)) ∧
    ((transformAggDf t.inputDf t.polygonCache false).map
        fun r => (r.lat, r.lng))
      = dedup1 (t.inputDf.map fun r => (r.lat, r.lng)) ∧
    ((transformAggDf t.inputDf t.polygonCache false).map
        fun r => (r.lat, r.lng)).Nodup ∧
    (∀ p : ℚ × ℚ,
      (p ∈ (transformAggDf t.inputDf t.polygonCache false).map
          fun r => (r.lat, r.lng))
        ↔ p ∈ t.inputDf.map fun r => (r.lat, r.lng)) ∧
    ∀ row ∈ transformAggDf t.inputDf t.polygonCache false,
      row.count = ((t.inputDf.filter fun x =>
        decide (x.lat = row.lat ∧ x.lng = row.lng)).map
          fun x => x.id).toFinset.card := by
  have hpairs : ((transformAggDf t.inputDf t.polygonCache false).map
      fun r => (r.lat, r.lng))
      = dedup1 (t.inputDf.map fun r => (r.lat, r.lng)) := by
    simp only [transformAggDf, List.map_map]
    exact List.map_id _
  refine ⟨?_, hpairs, ?_, ?_, ?_⟩
  · have hguard : guardError true none = none := rfl
    simp [DensityTransform.transform, h, hguard, AGG]
  · rw [hpairs]
    exact nodup_dedup1 _
  · intro p
    rw [hpairs, mem_dedup1]
  · intro row hrow
    simp only [transformAggDf, List.mem_map] at hrow
    rcases hrow with ⟨p, hp, rfl⟩
    exact length_dedup1 _

/-- C1 witness: the scenario of the spec — three records with ids
[0, 0, 1] in one cell give exactly one row with count 2. -/

theorem claim_C1_agg_scenario :
    t3.transform none
      = Except.ok (some (transformAggDf t3.inputDf t3.polygonCache false)) ∧
    transformAggDf t3.inputDf t3.polygonCache false
      = [{ lat := 0, lng := 0, count := 2, geo := none }] :=
  ⟨(claim_C1_agg_distinct_counts t3 rfl).1, rfl⟩

/-- C2: before `fit()` has succeeded, both fit-requiring methods fail
with the needs-fit precondition error, whatever mode argument is
supplied — the fit check of the `_needs_fit` decorator runs first. -/

theorem claim_C2_unfit_guard {ι ρ P : Type} [DecidableEq ι]
    (t : DensityTransform ι ρ P) (h : t.isFit = false)
    (mode? : Option String) :
    t.transform mode? = Except.error DtError.needsFit ∧
    t.transformPlot mode? = Except.error DtError.needsFit := by
  have hguard : guardError false mode? = some DtError.needsFit := rfl
  constructor
  · simp [DensityTransform.transform, h, hguard]
  · simp [DensityTransform.transformPlot, h, hguard]

/-- C2 witness: an un-fit instance called with an invalid mode still
fails with the needs-fit error, not the invalid-mode error. -/

theorem claim_C2_unfit_guard_witness :
    (t0.transform (some "bogus") = Except.error DtError.needsFit ∧
     t0.transformPlot (some "bogus") = Except.error DtError.needsFit) ∧
    MODES.contains "bogus" = false :=
  ⟨claim_C2_unfit_guard t0 rfl (some "bogus"), rfl⟩

/-- C3 counterexample: on a fitted instance, the empty-string mode is
outside the declared mode set yet raises no invalid-mode error (Python
truthiness skips the check), and the spelled-out mode "aggregate" —
MODES holds the literal "agg" — does raise it.  Both directions of the
claim fail as stated. -/

theorem claim_C3_mode_guard_cex :
    (t1.transform (some "") = Except.ok none ∧
     MODES.contains "" = false) ∧
    t1.transform (some "aggregate") = Except.error DtError.invalidMode ∧
    t1.transformPlot (some "") = Except.ok none :=
  ⟨⟨rfl, rfl⟩, rfl, rfl⟩

/-- C3 amended: on a fitted instance, a supplied mode raises the
invalid-mode error exactly when it is a non-empty string outside
`MODES = ["agg", "extrapolate"]`; in particular modes inside `MODES`
never raise it, and the empty string bypasses the validation. -/

theorem claim_C3_mode_guard_amended {ι ρ P : Type} [DecidableEq ι]
    (t : DensityTransform ι ρ P) (h : t.isFit = true) (m : String) :
    (t.transform (some m) = Except.error DtError.invalidMode
      ↔ (m ≠ "" ∧ m ∉ MODES)) ∧
    (t.transformPlot (some m) = Except.error DtError.invalidMode
      ↔ (m ≠ "" ∧ m ∉ MODES)) := by
  have hguard : guardError t.isFit (some m)
      = if m ≠ "" ∧ m ∉ MODES then some DtError.invalidMode else none := by
    simp [guardError, h]
  by_cases hc : m ≠ "" ∧ m ∉ MODES
  · rw [if_pos hc] at hguard
    refine ⟨iff_of_true ?_ hc, iff_of_true ?_ hc⟩ <;>
      simp [DensityTransform.transform, DensityTransform.transformPlot, hguard]
  · rw [if_neg hc] at hguard
    refine ⟨iff_of_false ?_ hc, iff_of_false ?_ hc⟩ <;>
      (intro he
       simp only [DensityTransform.transform, DensityTransform.transformPlot,
         hguard, Option.getD_some] at he
       split at he <;> exact Except.noConfusion he)

/-- C3 witness: a fitted instance with a non-empty invalid mode raises
the invalid-mode error. -/

theorem claim_C3_mode_guard_witness :
    t1.transform (some "bogus") = Except.error DtError.invalidMode :=
  ((claim_C3_mode_guard_amended t1 rfl "bogus").1).mpr (by decide)

/-- C4: for every resolution 0..15, `from_resolution` returns the entry
with that resolution number and exactly the decimal constants of the
documented table. -/

theorem claim_C4_resolution_table :
    H3Resolution.from_resolution 0
      = some ⟨0, 4250546.8477000, 1107.712591000⟩ ∧
    H3Resolution.from_resolution 1
      = some ⟨1, 607220.9782429, 418.676005500⟩ ∧
    H3Resolution.from_resolution 2
      = some ⟨2, 86745.8540347, 158.244655800⟩ ∧
    H3Resolution.from_resolution 3
      = some ⟨3, 12392.2648621, 59.810857940⟩ ∧
    H3Resolution.from_resolution 4
      = some ⟨4, 1770.3235517, 22.606379400⟩ ∧
    H3Resolution.from_resolution 5
      = some ⟨5, 252.9033645, 8.544408276⟩ ∧
    H3Resolution.from_resolution 6
      = some ⟨6, 36.1290521, 3.229482772⟩ ∧
    H3Resolution.from_resolution 7
      = some ⟨7, 5.1612932, 1.220629759⟩ ∧
    H3Resolution.from_resolution 8
      = some ⟨8, 0.7373276, 0.461354684⟩ ∧
    H3Resolution.from_resolution 9
      = some ⟨9, 0.1053325, 0.174375668⟩ ∧
    H3Resolution.from_resolution 10
      = some ⟨10, 0.0150475, 0.065907807⟩ ∧
    H3Resolution.from_resolution 11
      = some ⟨11, 0.0021496, 0.024910561⟩ ∧
    H3Resolution.from_resolution 12
      = some ⟨12, 0.0003071, 0.009415526⟩ ∧
    H3Resolution.from_resolution 13
      = some ⟨13, 0.0000439, 0.003559893⟩ ∧
    H3Resolution.from_resolution 14
      = some ⟨14, 0.0000063, 0.001348575⟩ ∧
    H3Resolution.from_resolution 15
      = some ⟨15, 0.0000009, 0.000509713⟩ :=
  ⟨rfl, rfl, rfl, rfl, rfl, rfl, rfl, rfl, rfl, rfl, rfl, rfl, rfl, rfl,
   rfl, rfl⟩

/-- C5: after fit, every record carries the centroid of its assigned
boundary polygon (lng = centroid x, lat = centroid y), the assigned
polygon is the boundary of the assigned cell, and two records of the
same cell end up with identical coordinates. -/

theorem claim_C5_centroid_replacement {ι ρ P : Type}
    (cellOf : ℚ → ℚ → ℕ → ℕ) (boundaryOf : ℕ → P)
    (centroidOf : P → ℚ × ℚ) (df : List (RawRecord ι ρ)) (res : ℕ) :
    (∀ r1 ∈ fitDf cellOf boundaryOf centroidOf df res,
      r1.lng = (centroidOf r1.geo).1 ∧ r1.lat = (centroidOf r1.geo).2) ∧
    (∀ r : RawRecord ι ρ,
      (fitRecord cellOf boundaryOf centroidOf res r).geo
        = boundaryOf (cellOf r.lat r.lng res)) ∧
    ∀ r1 ∈ df, ∀ r2 ∈ df,
      cellOf r1.lat r1.lng res = cellOf r2.lat r2.lng res →
        (fitRecord cellOf boundaryOf centroidOf res r1).lat
          = (fitRecord cellOf boundaryOf centroidOf res r2).lat ∧
        (fitRecord cellOf boundaryOf centroidOf res r1).lng
          = (fitRecord cellOf boundaryOf centroidOf res r2).lng := by
  refine ⟨?_, fun r => rfl, ?_⟩
  · intro r1 hr1
    rcases List.mem_map.mp hr1 with ⟨r, _, rfl⟩
    exact ⟨rfl, rfl⟩
  · intro r1 _ r2 _ hcell
    constructor <;> simp [fitRecord, hcell]

/-- C5 witness: two records with different raw coordinates but the same
cell carry identical coordinates after the fit. -/

theorem claim_C5_centroid_replacement_witness :
    (fitRecord g0 bd0 ctr0 9 rA).lat = (fitRecord g0 bd0 ctr0 9 rB).lat ∧
    (fitRecord g0 bd0 ctr0 9 rA).lng = (fitRecord g0 bd0 ctr0 9 rB).lng :=
  (claim_C5_centroid_replacement g0 bd0 ctr0 [rA, rB] 9).2.2 rA
    (List.mem_cons_self rA [rB]) rB
    (List.mem_cons_of_mem rA (List.mem_cons_self rB [])) rfl

/-- C6: on a fitted instance the polygon cache holds exactly one entry
per distinct (lat, lng) centroid pair of the fitted frame, keyed by the
formatted key string, and every row of the `transform_plot` aggregation
finds a non-null geometry in the cache. -/

theorem claim_C6_polygon_cache {ι ρ P : Type} [DecidableEq ι]
    (df1 : List (FitRecord ι ρ P)) :
    ((buildCache df1).map Prod.fst
      = (dedup1 (df1.map fun r => (r.lat, r.lng))).map
          fun p => poly_cache_key p.1 p.2) ∧
    ((DensityTransform.mk df1 (buildCache df1) true).transformPlot none
      = Except.ok (some (transformAggDf df1 (buildCache df1) true))) ∧
    ∀ row ∈ transformAggDf df1 (buildCache df1) true,
      row.geo.isSome = true := by
  have hkeys : (buildCache df1).map Prod.fst
      = (dedup1 (df1.map fun r => (r.lat, r.lng))).map
          fun p => poly_cache_key p.1 p.2 := by
    calc (buildCache df1).map Prod.fst
        = dedup1 (df1.map fun r => poly_cache_key r.lat r.lng) := by
          rw [buildCache, foldl_dictInsert_keys
            (fun r : FitRecord ι ρ P => poly_cache_key r.lat r.lng)
            (fun r => r.geo) df1 []]
          simp [dedup1]
      _ = dedup1 ((df1.map fun r => (r.lat, r.lng)).map
            fun p => poly_cache_key p.1 p.2) := by
          rw [List.map_map]
          rfl
      _ = (dedup1 (df1.map fun r => (r.lat, r.lng))).map
            fun p => poly_cache_key p.1 p.2 :=
          dedup1_map poly_cache_key_pair_inj _
  refine ⟨hkeys, rfl, ?_⟩
  intro row hrow
  simp only [transformAggDf, List.mem_map] at hrow
  rcases hrow with ⟨p, hp, rfl⟩
  simp only [if_pos]
  apply dictGet_isSome
  rw [hkeys]
  exact List.mem_map_of_mem _ hp

/-- C6 witness: the scenario cache carries one key for the single cell,
and the restored aggregation row carries its polygon. -/

theorem claim_C6_polygon_cache_witness :
    ((buildCache t3.inputDf).map Prod.fst
      = (dedup1 (t3.inputDf.map fun r => (r.lat, r.lng))).map
          fun p => poly_cache_key p.1 p.2) ∧
    transformAggDf t3.inputDf (buildCache t3.inputDf) true
      = [{ lat := 0, lng := 0, count := 2, geo := some () }] :=
  ⟨(claim_C6_polygon_cache t3.inputDf).1, rfl⟩

/-- C7: construction copies the dataset of the caller into a fresh cell,
and neither construction nor `fit` (the only store-mutating operations)
changes the cell of the caller. -/

theorem claim_C7_input_copy {ι ρ P : Type}
    (cellOf : ℚ → ℚ → ℕ → ℕ) (boundaryOf : ℕ → P)
    (centroidOf : P → ℚ × ℚ) (s : Store ι ρ P) (callerRef res : ℕ)
    (h : callerRef < s.next) :
    ((dtInit s callerRef).2.dfRef ≠ callerRef) ∧
    ((dtInit s callerRef).1.mem (dtInit s callerRef).2.dfRef
      = s.mem callerRef) ∧
    ((dtInit s callerRef).1.mem callerRef = s.mem callerRef) ∧
    ((dtFit cellOf boundaryOf centroidOf (dtInit s callerRef).1
        (dtInit s callerRef).2 res).1.mem callerRef
      = s.mem callerRef) := by
  have hne : callerRef ≠ s.next := Nat.ne_of_lt h
  refine ⟨fun heq => hne heq.symm, ?_, ?_, ?_⟩
  · simp [dtInit]
  · simp [dtInit, hne]
  · simp [dtFit, dtInit, hne]

/-- C7 witness: in a store whose caller cell holds one record, the cell
of the caller is unchanged after construction followed by fit. -/

theorem claim_C7_input_copy_witness :
    (dtFit g0 bd0 ctr0 (dtInit s0 0).1 (dtInit s0 0).2 9).1.mem 0
      = s0.mem 0 :=
  (claim_C7_input_copy g0 bd0 ctr0 s0 0 9 (by decide)).2.2.2

/-- C8: the spec scenario (a 500 feed then a good feed with 3 bikes)
does give 3 rows with no exception; but a connection error is not merely
logged — with no prior feed the loop then reads the never-assigned
`resp` and raises UnboundLocalError, and after a successful feed it
re-processes the stale response and duplicates its rows.  The missing
`continue` in the except branch contradicts the stated skip-and-log
behaviour. -/

theorem claim_C8_feed_bug :
    free_bike_status_to_df
        [FeedResult.resp 500 none, FeedResult.resp 200 (some [1, 2, 3])]
      = Except.ok [1, 2, 3] ∧
    free_bike_status_to_df ([FeedResult.connError] : List (FeedResult ℕ))
      = Except.error UtilError.unboundLocal ∧
    free_bike_status_to_df
        [FeedResult.resp 200 (some [7]), FeedResult.connError]
      = Except.ok ([7, 7] : List ℕ) :=
  ⟨rfl, rfl, rfl⟩

/-- C9 counterexample: resolution -1 is outside 0..15, yet the lookup
does not fail — Python negative indexing wraps to the last entry, so the
call returns the constants of resolution 15 under the resolution
number -1. -/

theorem claim_C9_lookup_cex :
    H3Resolution.from_resolution (-1)
      = some ⟨-1, 0.0000009, 0.000509713⟩ := rfl

/-- C9 amended: the lookup is pure and fails (index error) exactly for
resolutions below -16 or above 15; every resolution in -16..15 succeeds,
the negative ones through Python index wrap-around. -/

theorem claim_C9_lookup_amended (res : ℤ) :
    (H3Resolution.from_resolution res).isSome = true
      ↔ (-16 ≤ res ∧ res ≤ 15) := by
  have hmap : ∀ {α β : Type} (f : α → β) (o : Option α),
      (o.map f).isSome = o.isSome := by
    intro α β f o
    cases o <;> rfl
  have hlen : (_resolution_values).length = 16 := rfl
  rw [H3Resolution.from_resolution, hmap, pyIndex]
  by_cases h1 : 0 ≤ res
  · rw [if_pos h1, listGet?_isSome, hlen]
    omega
  · rw [if_neg h1]
    by_cases h2 : 0 ≤ res + (_resolution_values : List (ℚ × ℚ)).length
    · rw [if_pos h2, listGet?_isSome, hlen]
      rw [hlen] at h2
      omega
    · rw [if_neg h2]
      rw [hlen] at h2
      simp only [Option.isSome_none, Bool.false_eq_true, false_iff]
      omega

/-- C9 witness: the amended domain at two concrete points — 20 fails,
-16 still succeeds. -/

theorem claim_C9_lookup_amended_witness :
    ((H3Resolution.from_resolution 20).isSome = true
      ↔ (-16 ≤ (20 : ℤ) ∧ (20 : ℤ) ≤ 15)) ∧
    ((H3Resolution.from_resolution (-16)).isSome = true
      ↔ (-16 ≤ (-16 : ℤ) ∧ (-16 : ℤ) ≤ 15)) :=
  ⟨claim_C9_lookup_amended 20, claim_C9_lookup_amended (-16)⟩

/-- C10: on a fitted instance the declared extrapolate mode passes the
mode validation yet both methods return Python `None` — no result and no
error. -/

theorem claim_C10_extrapolate_none {ι ρ P : Type} [DecidableEq ι]
    (t : DensityTransform ι ρ P) (h : t.isFit = true) :
    t.transform (some EXTRAP) = Except.ok none ∧
    t.transformPlot (some EXTRAP) = Except.ok none ∧
    EXTRAP ∈ MODES := by
  have hguard : guardError true (some EXTRAP) = none := by decide
  refine ⟨?_, ?_, by decide⟩
  · simp only [DensityTransform.transform, h, hguard, Option.getD_some]
    rw [if_neg (by decide : ¬(EXTRAP = AGG))]
  · simp only [DensityTransform.transformPlot, h, hguard, Option.getD_some]
    rw [if_neg (by decide : ¬(EXTRAP = AGG))]

/-- C10 witness: the fitted scenario instance returns `none` for the
extrapolate mode on both methods. -/

theorem claim_C10_extrapolate_none_witness :
    t3.transform (some EXTRAP) = Except.ok none ∧
    t3.transformPlot (some EXTRAP) = Except.ok none ∧
    EXTRAP ∈ MODES :=
  claim_C10_extrapolate_none t3 rfl

end SLD
